import Mathlib

/-!
# Verification of the Table repository's view-state engine

Shallow embedding of the core derivation pipeline of the data-table widget
(`src/table.js`, `src/table-old.js`, `src/unnamed/part_000`): JS values and
their stringification, the search filter, the stable sort, the pagination
slice, the pagination-window calculator, and the sort-click / construction
state transitions.  Machine details follow the JavaScript source: `String(v)`
turns `undefined` into the string `"undefined"`, `Array.prototype.slice`
interprets negative indices relative to the end of the array, and
`Array.prototype.sort` is required by the language to be stable (modelled
here as a stable insertion sort on the 3-way comparators of the source).
-/

/-- A JavaScript value stored in a record cell: a string, a number
(integral in this model), or `undefined` (a missing field). -/
inductive JsValue : Type where
  | str (s : String)
  | num (n : Int)
  | undef
deriving DecidableEq

/-- A table record: a finite mapping from column keys to values,
looked up positionally (`entry[key]`). -/
def Record : Type := List (String × JsValue)

instance : DecidableEq Record := by unfold Record; infer_instance

/-- `entry[key]` of JavaScript: the stored value, or `undefined`
when the key is absent. -/
def entryGet (entry : Record) (key : String) : JsValue :=
  match entry.find? (fun p => p.1 = key) with
  | some p => p.2
  | none => JsValue.undef

/-- A column descriptor: `key`, display `label`, and the `ignoreFiltering`
flag that excludes the column from searching and sorting. -/
structure Column where
  key : String
  label : String
  ignoreFiltering : Bool
deriving DecidableEq

/-- JavaScript `String(v)`: identity on strings, decimal rendering of
numbers, and the literal string `"undefined"` for `undefined`. -/
def jsString : JsValue → String
  | JsValue.str s => s
  | JsValue.num n => toString n
  | JsValue.undef => "undefined"

/-- `s.toLowerCase()` modelled on ASCII letters via `Char.toLower`. -/
def jsToLower (s : String) : String :=
  String.mk (s.data.map Char.toLower)

/-- Does the pattern occur at the very front of the text? -/
def listStarts : List Char → List Char → Bool
  | [], _ => true
  | _ :: _, [] => false
  | a :: as, b :: bs => a = b && listStarts as bs

/-- Does the pattern occur anywhere in the text (contiguously)? -/
def listContains (pat : List Char) : List Char → Bool
  | [] => pat.isEmpty
  | a :: rest => listStarts pat (a :: rest) || listContains pat rest

/-- JavaScript `s.includes(t)` / `s.indexOf(t) !== -1`: `t` occurs in `s`
as a contiguous substring. -/
def jsIncludes (s t : String) : Bool :=
  listContains t.data s.data

/-- The `range(low, high)` helper of the source: the integers from `low`
(inclusive) to `high` (exclusive); empty when `high ≤ low`. -/
def jsRange (low high : Nat) : List Nat :=
  List.range' low (high - low)

/-- A pagination token: a page number or the `'...'` ellipsis marker. -/
inductive Token : Type where
  | page (n : Nat)
  | ellipsis
deriving DecidableEq

/-- The pagination-window item list built by `renderPagination`
(`src/table.js` lines 219-237) and `createPagination`
(`src/table-old.js` lines 211-227): when more than one page exists,
a leading segment, the pages surrounding the current one, and a
trailing segment; otherwise no page tokens at all. -/
def window (currentPage totalPages radius : Nat) : List Token :=
  if totalPages > 1 then
    let surroundStart := max 1 (currentPage - radius)
    let surroundEnd := min totalPages (currentPage + radius)
    (if surroundStart > 2 then [Token.page 1, Token.ellipsis]
     else if surroundStart > 1 then [Token.page 1] else [])
    ++ (jsRange surroundStart (surroundEnd + 1)).map Token.page
    ++ (if surroundEnd < totalPages - 1 then [Token.ellipsis, Token.page totalPages]
        else if surroundEnd < totalPages then [Token.page totalPages] else [])
  else []

/-- Modelled from the spec's words (§4.4, radius 2), for comparison with
the source-derived `window`: empty sequence when `totalPages ≤ 1`;
otherwise leading segment, then every integer from `max(1, currentPage-2)`
to `min(totalPages, currentPage+2)` inclusive, then trailing segment. -/
def specWindow (currentPage totalPages : Nat) : List Token :=
  if totalPages ≤ 1 then []
  else
    let a := max 1 (currentPage - 2)
    let b := min totalPages (currentPage + 2)
    (if a > 2 then [Token.page 1, Token.ellipsis]
     else if a > 1 then [Token.page 1] else [])
    ++ (List.range' a (b + 1 - a)).map Token.page
    ++ (if b < totalPages - 1 then [Token.ellipsis, Token.page totalPages]
        else if b < totalPages then [Token.page totalPages] else [])

/-- **C1.** The pagination window of the source, at radius 2, agrees with
the spec's algorithm for every `currentPage` and `totalPages` (in
particular it is empty whenever `totalPages ≤ 1`), and reproduces the
four concrete cases `window(1,1,2) = []`,
`window(1,10,2) = [1,2,3,"...",10]`,
`window(5,10,2) = [1,"...",3,4,5,6,7,"...",10]`, and
`window(9,10,2) = [1,"...",7,8,9,10]`. -/
theorem c1_window_matches_spec :
    (∀ currentPage totalPages : Nat,
      window currentPage totalPages 2 = specWindow currentPage totalPages)
    ∧ window 1 1 2 = []
    ∧ window 1 10 2 =
        [Token.page 1, Token.page 2, Token.page 3, Token.ellipsis, Token.page 10]
    ∧ window 5 10 2 =
        [Token.page 1, Token.ellipsis, Token.page 3, Token.page 4, Token.page 5,
         Token.page 6, Token.page 7, Token.ellipsis, Token.page 10]
    ∧ window 9 10 2 =
        [Token.page 1, Token.ellipsis, Token.page 7, Token.page 8, Token.page 9,
         Token.page 10] := by
  refine ⟨fun currentPage totalPages => ?_, by decide, by decide, by decide, by decide⟩
  unfold window specWindow jsRange
  rcases Nat.lt_or_ge 1 totalPages with h | h
  · rw [if_pos h, if_neg (by omega)]
  · rw [if_neg (by omega), if_pos (by omega)]

/-! ## Filter engine (`filterByTerm`, `src/table-old.js` lines 107-127, and the
search handler of `src/table.js` lines 58-74) -/

/-- The per-field check of `filterByTerm`: stringify the value, skip empty
strings (`if (field)`), and otherwise test whether the lower-cased field
contains the search term. -/
def fieldMatchesOld (v : JsValue) (searchTerm : String) : Bool :=
  let field := jsString v
  if field ≠ "" then jsIncludes (jsToLower field) searchTerm else false

/-- The record predicate of `filterByTerm`: some column with
`ignoreFiltering` false whose field matches (the loop with early
`return true` of `src/table-old.js` lines 110-122). -/
def filterMatchOld (columns : List Column) (entry : Record) (searchTerm : String) : Bool :=
  columns.any (fun c => !c.ignoreFiltering && fieldMatchesOld (entryGet entry c.key) searchTerm)

/-- The record predicate of the class variant's search handler
(`src/table.js` lines 62-69): no empty-string guard, otherwise identical. -/
def filterMatchClass (columns : List Column) (entry : Record) (searchTerm : String) : Bool :=
  columns.any (fun c =>
    !c.ignoreFiltering && jsIncludes (jsToLower (jsString (entryGet entry c.key))) searchTerm)

/-- `filterByTerm` of `src/table-old.js`: filter by the predicate when the
term is non-empty, otherwise keep the data unchanged. -/
def filterByTerm (data : List Record) (columns : List Column) (searchTerm : String) : List Record :=
  if searchTerm.length ≠ 0 then
    data.filter (fun e => filterMatchOld columns e searchTerm)
  else data

/-- JavaScript `s.trim()`: whitespace stripped from both ends, modelled
executably on the character list. -/
def jsTrim (s : String) : String :=
  String.mk (((s.data.dropWhile Char.isWhitespace).reverse.dropWhile Char.isWhitespace).reverse)

/-- The whole search path: the input handler trims and lower-cases the raw
input (`searchInput.value.trim().toLowerCase()`) before filtering. -/
def searchFilter (data : List Record) (columns : List Column) (rawTerm : String) : List Record :=
  filterByTerm data columns (jsToLower (jsTrim rawTerm))

/-- Modelled from the spec's words (§4.1 / C2), for comparison with the
source-derived predicate: at least one column with `ignoreFiltering` false
has a stringified, case-folded value containing the case-folded term as a
substring. -/
def specMatch (columns : List Column) (rawTerm : String) (entry : Record) : Bool :=
  columns.any (fun c =>
    !c.ignoreFiltering
      && jsIncludes (jsToLower (jsString (entryGet entry c.key))) (jsToLower rawTerm))

/-! ## Sort engine (`sortData`, `src/table.js` lines 111-121; `orderBy`,
`src/table-old.js` lines 141-145) -/

/-- A sort direction: `"asc"` or `"desc"`. -/
inductive Order : Type where
  | asc
  | desc
deriving DecidableEq

/-- The active sort column and direction. -/
structure SortState where
  key : String
  order : Order
deriving DecidableEq

/-- JavaScript's abstract relational comparison `x < y` restricted to the
modelled value types: lexicographic between two strings, numeric otherwise,
with `undefined` (`NaN` after `ToNumber`) comparing false to everything. -/
def jsLt (x y : JsValue) : Bool :=
  match x, y with
  | JsValue.str a, JsValue.str b => decide (a < b)
  | JsValue.num a, JsValue.num b => decide (a < b)
  | _, _ => false

/-- The 3-way comparator body `(x > y) - (x < y)` of `sortData`, with the
boolean-to-number coercion of JavaScript made explicit. -/
def cmp3 (x y : JsValue) : Int :=
  (if jsLt y x then (1 : Int) else 0) - (if jsLt x y then (1 : Int) else 0)

/-- The comparator passed to `this.data.sort` in `sortData`: ascending
compares `a[key]` with `b[key]`, descending swaps the operands. -/
def sortCompare (sc : SortState) (a b : Record) : Int :=
  match sc.order with
  | Order.asc => cmp3 (entryGet a sc.key) (entryGet b sc.key)
  | Order.desc => cmp3 (entryGet b sc.key) (entryGet a sc.key)

/-- `a` may stay before `b` under the comparator (comparator value ≤ 0);
the order relation realised by a stable sort. -/
def recLe (sc : SortState) (a b : Record) : Bool :=
  decide (sortCompare sc a b ≤ 0)

/-- Insert an element into a list in front of the first element it is
`le`-below: the inner step of a stable insertion sort. -/
def orderedInsertJs {α : Type} (le : α → α → Bool) (a : α) : List α → List α
  | [] => [a]
  | b :: l => if le a b then a :: b :: l else b :: orderedInsertJs le a l

/-- Stable insertion sort: the model of `Array.prototype.sort`, which
ECMAScript requires to be stable. -/
def insertionSortJs {α : Type} (le : α → α → Bool) : List α → List α
  | [] => []
  | a :: l => orderedInsertJs le a (insertionSortJs le l)

/-- `this.data.sort(comparator)` of `sortData`, as a stable sort under the
source's 3-way comparator. -/
def jsSortRecords (sc : SortState) (l : List Record) : List Record :=
  insertionSortJs (recLe sc) l

/-! ## Pagination slice (`paginate`, `src/table-old.js` lines 9-12 and
`src/table.js` lines 126-129) -/

/-- JavaScript `Array.prototype.slice(start, stop)`: negative indices count
from the end of the array, and both bounds are clamped to `[0, length]`. -/
def jsSlice {α : Type} (l : List α) (start stop : Int) : List α :=
  let len : Int := l.length
  let s : Int := if start < 0 then max (len + start) 0 else min start len
  let e : Int := if stop < 0 then max (len + stop) 0 else min stop len
  (l.drop s.toNat).take (e - s).toNat

/-- `paginate(data, currentPage, pageSize)`: the slice at indices
`[pageSize*(currentPage-1), pageSize*(currentPage-1)+pageSize)`. -/
def paginate {α : Type} (data : List α) (currentPage : Int) (pageSize : Nat) : List α :=
  let startIndex : Int := (pageSize : Int) * (currentPage - 1)
  jsSlice data startIndex (startIndex + pageSize)

/-- `Math.ceil(len / pageSize)` for natural `len` and positive `pageSize`. -/
def totalPages (len pageSize : Nat) : Nat :=
  (len + pageSize - 1) / pageSize

/-! ## The sort-click handlers (C5) -/

/-- The `"asc" ↔ "desc"` ternary of the header click handlers. -/
def toggleOrder : Order → Order
  | Order.asc => Order.desc
  | Order.desc => Order.asc

/-- The sort state produced by a header click on column key `k`: toggle the
direction when `k` is the active key, otherwise select `k` ascending. -/
def nextSortState (sc : SortState) (k : String) : SortState :=
  if sc.key = k
  then { key := sc.key, order := toggleOrder sc.order }
  else { key := k, order := Order.asc }

/-- The view state of the class variants: source data, filtered data,
column schema, sort state, current page and page size. -/
structure TState where
  data : List Record
  filtered : List Record
  columns : List Column
  sortColumn : SortState
  currentPage : Nat
  pageSize : Nat
deriving DecidableEq

/-- The header click handler of `src/table.js` (lines 147-156): update the
sort state, then `sortData()` (sorts `this.data` in place and copies it
into `this.filtered`).  `currentPage` is not touched. -/
def headerClickJs (st : TState) (k : String) : TState :=
  let sc :=
    if st.sortColumn.key = k
    then { st.sortColumn with
             order := if st.sortColumn.order = Order.asc then Order.desc else Order.asc }
    else { key := k, order := Order.asc }
  let d := jsSortRecords sc st.data
  { st with sortColumn := sc, data := d, filtered := d }

/-- The header click handler of `src/unnamed/part_000` (lines 176-186):
update the sort state and reset `currentPage` to 1; the `sortData()` call
is commented out, so neither `data` nor `filtered` is re-sorted. -/
def headerClickPart (st : TState) (k : String) : TState :=
  let sc :=
    if st.sortColumn.key = k
    then { st.sortColumn with
             order := if st.sortColumn.order = Order.asc then Order.desc else Order.asc }
    else { key := k, order := Order.asc }
  { st with sortColumn := sc, currentPage := 1 }

/-! ## Construction (C7, C10) -/

/-- An exception raised during construction: the `TypeError` from reading
`columns[0].key` in the default value of `sortColumn`, or the explicit
`Error` thrown when no element/container is supplied. -/
inductive ConstructError : Type where
  | typeError
  | elementError
deriving DecidableEq

/-- Resolution of the default parameter
`sortColumn = { key: columns[0].key, order: "asc" }`: evaluated only when
the caller omits `sortColumn`, and raising a `TypeError` when `columns`
is empty (`columns[0]` is `undefined`). -/
def resolveSortColumn (columns : List Column) :
    Option SortState → Except ConstructError SortState
  | some sc => Except.ok sc
  | none =>
    match columns with
    | [] => Except.error ConstructError.typeError
    | c :: _ => Except.ok { key := c.key, order := Order.asc }

/-- The engine state produced by a successful `DataTable` construction. -/
structure Engine where
  data : List Record
  filtered : List Record
  columns : List Column
  sortColumn : SortState
  currentPage : Nat
  pageSize : Nat
deriving DecidableEq

/-- The `DataTable` constructor (`src/table.js` lines 23-42): default
parameters resolve first (possibly raising the `TypeError`), then the body
throws when `element` is missing, then `initData` sorts the data and
copies it into `filtered`.  Nothing else can throw. -/
def construct (element : Bool) (data : List Record) (columns : List Column)
    (sortColumn? : Option SortState) (pageSize : Nat) : Except ConstructError Engine := do
  let sortColumn ← resolveSortColumn columns sortColumn?
  if !element then
    throw ConstructError.elementError
  else
    let d := jsSortRecords sortColumn data
    pure { data := d, filtered := d, columns := columns, sortColumn := sortColumn,
           currentPage := 1, pageSize := pageSize }

/-- Whether a construction attempt succeeded. -/
def exceptOk {ε α : Type} : Except ε α → Bool
  | Except.ok _ => true
  | Except.error _ => false

/-- What `tablePage` of `src/table-old.js` hands back to its caller:
whether only the no-records card was rendered, and whether the `update`
function (the data-replacement operation) was returned. -/
structure TablePageView where
  noRecordsCardOnly : Bool
  updateAvailable : Bool
deriving DecidableEq

/-- The entry phase of `tablePage` (`src/table-old.js` lines 50-68): default
`sortColumn` resolution, the `Error` when no container is supplied, and the
early `return` (yielding `undefined`, so no `update` function) when the
initial data is empty and `hasRefresh` is false. -/
def tablePage (container : Bool) (data : List Record) (columns : List Column)
    (sortColumn? : Option SortState) (hasRefresh : Bool) :
    Except ConstructError TablePageView := do
  let _sortColumn ← resolveSortColumn columns sortColumn?
  if !container then
    throw ConstructError.elementError
  else if data.length = 0 && !hasRefresh then
    pure { noRecordsCardOnly := true, updateAvailable := false }
  else
    pure { noRecordsCardOnly := false, updateAvailable := true }

/-! ## Stable-sort lemmas -/

/-- Inserting into a chain (each element `le`-below the next) yields a
chain, provided `le` is total. -/
theorem chain'_orderedInsertJs {α : Type} (le : α → α → Bool)
    (htot : ∀ a b, le a b = true ∨ le b a = true) (a : α) :
    ∀ l : List α, List.Chain' (fun x y => le x y = true) l →
      List.Chain' (fun x y => le x y = true) (orderedInsertJs le a l) := by
  intro l
  induction l with
  | nil =>
    intro _
    simp only [orderedInsertJs]
    exact List.chain'_singleton a
  | cons b bs ih =>
    intro h
    rw [orderedInsertJs]
    by_cases hab : le a b = true
    · rw [if_pos hab]
      exact List.chain'_cons.mpr ⟨hab, h⟩
    · rw [if_neg hab]
      have hba : le b a = true := (htot a b).resolve_left hab
      have htail : List.Chain' (fun x y => le x y = true) bs := h.tail
      refine List.chain'_cons'.mpr ⟨?_, ih htail⟩
      intro x hx
      cases bs with
      | nil => simp [orderedInsertJs] at hx; subst hx; exact hba
      | cons c cs =>
        rw [orderedInsertJs] at hx
        by_cases hac : le a c = true
        · rw [if_pos hac] at hx
          simp at hx; subst hx; exact hba
        · rw [if_neg hac] at hx
          simp at hx; subst hx
          exact (List.chain'_cons.mp h).1

/-- The output of the stable insertion sort is a chain whenever `le` is
total. -/
theorem chain'_insertionSortJs {α : Type} (le : α → α → Bool)
    (htot : ∀ a b, le a b = true ∨ le b a = true) :
    ∀ l : List α, List.Chain' (fun x y => le x y = true) (insertionSortJs le l) := by
  intro l
  induction l with
  | nil => simp [insertionSortJs]
  | cons a l ih => exact chain'_orderedInsertJs le htot a _ ih

/-- Sorting a chain leaves it unchanged: the stable sort is the identity
on already-sorted lists. -/
theorem insertionSortJs_eq_of_chain' {α : Type} (le : α → α → Bool) :
    ∀ l : List α, List.Chain' (fun x y => le x y = true) l →
      insertionSortJs le l = l := by
  intro l
  induction l with
  | nil => intro _; rfl
  | cons a l ih =>
    intro h
    rw [insertionSortJs, ih h.tail]
    cases l with
    | nil => rfl
    | cons b bs =>
      rw [orderedInsertJs, if_pos (List.chain'_cons.mp h).1]

/-- The stable insertion sort is idempotent for every total `le`. -/
theorem insertionSortJs_idem {α : Type} (le : α → α → Bool)
    (htot : ∀ a b, le a b = true ∨ le b a = true) (l : List α) :
    insertionSortJs le (insertionSortJs le l) = insertionSortJs le l :=
  insertionSortJs_eq_of_chain' le _ (chain'_insertionSortJs le htot l)

/-- Insertion produces a permutation of consing. -/
theorem orderedInsertJs_perm {α : Type} (le : α → α → Bool) (a : α) :
    ∀ l : List α, List.Perm (orderedInsertJs le a l) (a :: l) := by
  intro l
  induction l with
  | nil => rfl
  | cons b bs ih =>
    rw [orderedInsertJs]
    by_cases hab : le a b = true
    · rw [if_pos hab]
    · rw [if_neg hab]
      exact (ih.cons b).trans (List.Perm.swap a b bs)

/-- The stable insertion sort permutes its input. -/
theorem insertionSortJs_perm {α : Type} (le : α → α → Bool) :
    ∀ l : List α, List.Perm (insertionSortJs le l) l := by
  intro l
  induction l with
  | nil => rfl
  | cons a l ih =>
    exact (orderedInsertJs_perm le a _).trans (ih.cons a)

/-- The comparator of `sortData` is antisymmetric as an integer function:
swapping the arguments negates it. -/
theorem cmp3_antisym (x y : JsValue) : cmp3 x y + cmp3 y x = 0 := by
  unfold cmp3
  cases h1 : jsLt y x <;> cases h2 : jsLt x y <;> simp [h1, h2]

/-- The order relation realised by the sort is total: of two records, one
may come first. -/
theorem recLe_total (sc : SortState) : ∀ a b, recLe sc a b = true ∨ recLe sc b a = true := by
  intro a b
  unfold recLe
  simp only [decide_eq_true_eq]
  cases h : sc.order <;>
    · simp only [sortCompare, h]
      have := cmp3_antisym (entryGet a sc.key) (entryGet b sc.key)
      have := cmp3_antisym (entryGet b sc.key) (entryGet a sc.key)
      omega

/-- **C9.** Sorting is idempotent: for every record list `r` and sort
state `s`, `sort(sort(r, s), s) = sort(r, s)` — in particular re-sorting
with the same key and direction leaves the order unchanged.  This holds
because `Array.prototype.sort` is stable and the 3-way comparator of
`sortData` is antisymmetric, hence induces a total "may stay before"
relation. -/
theorem c9_sort_idempotent (sc : SortState) (l : List Record) :
    jsSortRecords sc (jsSortRecords sc l) = jsSortRecords sc l :=
  insertionSortJs_idem (recLe sc) (recLe_total sc) l

/-! ## Filter-engine lemmas (C2, C6) -/

/-- A string with an empty character list is the empty string. -/
theorem strEq_empty_of_data (s : String) (h : s.data = []) : s = "" := by
  cases s with
  | mk l =>
    have hl : l = [] := h
    subst hl
    rfl

/-- A non-empty string has a non-empty character list. -/
theorem strData_ne_nil (t : String) (h : t ≠ "") : t.data ≠ [] :=
  fun hc => h (strEq_empty_of_data t hc)

/-- Lower-casing preserves (non-)emptiness. -/
theorem jsToLower_ne_empty (s : String) (h : s ≠ "") : jsToLower s ≠ "" := by
  intro hc
  have hd : s.data.map Char.toLower = [] := congrArg String.data hc
  exact strData_ne_nil s h (List.map_eq_nil_iff.mp hd)

/-- An empty text contains no non-empty pattern. -/
theorem jsIncludes_empty (t : String) (h : t ≠ "") : jsIncludes "" t = false := by
  unfold jsIncludes listContains
  have : t.data ≠ [] := strData_ne_nil t h
  cases hd : t.data with
  | nil => exact absurd hd this
  | cons a as => simp [List.isEmpty]

/-- For a non-empty term, the guarded field check of `filterByTerm` agrees
with the unguarded containment test: an empty field cannot contain a
non-empty term anyway. -/
theorem fieldMatchesOld_eq (v : JsValue) (t : String) (ht : t ≠ "") :
    fieldMatchesOld v t = jsIncludes (jsToLower (jsString v)) t := by
  unfold fieldMatchesOld
  by_cases h : jsString v = ""
  · rw [h]
    simp only [ne_eq, not_true_eq_false, if_false]
    have h0 : jsToLower "" = "" := rfl
    rw [h0, jsIncludes_empty t ht]
  · rw [if_pos h]

/-- For a non-empty term the two source predicates (guarded loop of
`table-old.js`, unguarded loop of `table.js`) coincide. -/
theorem filterMatchOld_eq_class (columns : List Column) (entry : Record) (t : String)
    (ht : t ≠ "") : filterMatchOld columns entry t = filterMatchClass columns entry t := by
  unfold filterMatchOld filterMatchClass
  have hfun : (fun c : Column =>
      !c.ignoreFiltering && fieldMatchesOld (entryGet entry c.key) t)
      = (fun c : Column =>
      !c.ignoreFiltering && jsIncludes (jsToLower (jsString (entryGet entry c.key))) t) := by
    funext c
    rw [fieldMatchesOld_eq _ _ ht]
  rw [hfun]

/-- **C2.** For every non-empty (already-trimmed) search term, the search
path returns exactly `data.filter` of the spec predicate — at least one
column with `ignoreFiltering` false whose stringified, case-folded value
contains the case-folded term — hence a subsequence of the input in
original order, containing precisely the records satisfying the
predicate. -/
theorem c2_filter_exact (data : List Record) (columns : List Column) (rawTerm : String)
    (h1 : rawTerm ≠ "") (h2 : jsTrim rawTerm = rawTerm) :
    searchFilter data columns rawTerm = data.filter (specMatch columns rawTerm)
    ∧ (searchFilter data columns rawTerm).Sublist data
    ∧ ∀ r, r ∈ searchFilter data columns rawTerm ↔
        (r ∈ data ∧ specMatch columns rawTerm r = true) := by
  have hmain : searchFilter data columns rawTerm = data.filter (specMatch columns rawTerm) := by
    unfold searchFilter filterByTerm
    rw [h2]
    have ht : jsToLower rawTerm ≠ "" := jsToLower_ne_empty rawTerm h1
    have hlen : (jsToLower rawTerm).length ≠ 0 := by
      intro hc
      apply ht
      apply strEq_empty_of_data
      have hc' : (jsToLower rawTerm).data.length = 0 := hc
      exact List.length_eq_zero.mp hc'
    rw [if_pos hlen]
    have hfun : (fun e => filterMatchOld columns e (jsToLower rawTerm))
        = specMatch columns rawTerm := by
      funext e
      rw [filterMatchOld_eq_class columns e _ ht]
      rfl
    rw [hfun]
  refine ⟨hmain, ?_, ?_⟩
  · rw [hmain]; exact List.filter_sublist data
  · intro r
    rw [hmain]
    exact List.mem_filter

/-- A record whose only field is `"b"`, so that looking up column `"a"`
yields `undefined`. -/
def undefRec : Record := [("b", JsValue.str "x")]

/-- A single searchable column with key `"a"`. -/
def keyColumn : Column := { key := "a", label := "A", ignoreFiltering := false }

/-- **C6 counterexample.** The claim says a record with a missing value in
the searched column "never matches any non-empty search term via that
column"; but `String(undefined)` is the non-empty string `"undefined"`, so
the record `undefRec` (with no `"a"` field) survives the filter for the
non-empty term `"undef"`. -/
theorem c6_counterexample :
    filterByTerm [undefRec] [keyColumn] "undef" = [undefRec] ∧ "undef" ≠ "" := by
  constructor
  · rfl
  · decide

/-- **C6 (amended).** For every record whose searched column value is
missing/`undefined`, the stringified value is the literal string
`"undefined"`, so for any non-empty search term the column's match check
succeeds exactly when the term occurs in `"undefined"` as a substring
(rather than never succeeding). -/
theorem c6_amended (entry : Record) (k : String) (t : String)
    (hu : entryGet entry k = JsValue.undef) (_ht : t ≠ "") :
    fieldMatchesOld (entryGet entry k) t = jsIncludes "undefined" t := by
  rw [hu]
  unfold fieldMatchesOld jsString
  have h0 : jsToLower "undefined" = "undefined" := rfl
  simp only [ne_eq]
  rw [if_pos (by decide), h0]

/-- **C6 witness.** The amended theorem applied at the concrete record
with no `"a"` field and the term `"undef"`. -/
theorem c6_amended_witness :
    fieldMatchesOld (entryGet undefRec "a") "undef" = jsIncludes "undefined" "undef" :=
  c6_amended undefRec "a" "undef" (by rfl) (by decide)


/-! ## Pagination-slice lemmas (C3, C4) -/

/-- A `slice` with natural bounds `[a, a + ps)` is drop-then-take. -/
theorem jsSlice_nat {α : Type} (l : List α) (a ps : Nat) :
    jsSlice l (a : Int) ((a : Int) + (ps : Int)) = (l.drop a).take ps := by
  unfold jsSlice
  dsimp only
  rw [if_neg (by omega : ¬ ((a : Int) < 0)),
      if_neg (by omega : ¬ ((a : Int) + (ps : Int) < 0))]
  have hs : (min (a : Int) (l.length : Int)).toNat = min a l.length := by omega
  have he : ((min ((a : Int) + (ps : Int)) (l.length : Int))
      - min (a : Int) (l.length : Int)).toNat
      = min (a + ps) l.length - min a l.length := by omega
  rw [hs, he]
  by_cases hle : a ≤ l.length
  · rw [min_eq_left hle]
    have hlen : (l.drop a).length = l.length - a := List.length_drop a l
    rw [List.take_eq_take]
    omega
  · rw [min_eq_right (by omega : l.length ≤ a), min_eq_right (by omega : l.length ≤ a + ps)]
    rw [List.drop_length, Nat.sub_self]
    rw [List.drop_eq_nil_of_le (by omega : l.length ≤ a)]
    simp

/-- For a page number `p ≥ 1` the slice of `paginate` is the usual
drop-then-take at offset `pageSize * (p - 1)`. -/
theorem paginate_nat {α : Type} (l : List α) (p ps : Nat) (hp : 1 ≤ p) :
    paginate l (p : Int) ps = (l.drop (ps * (p - 1))).take ps := by
  unfold paginate
  dsimp only
  have hcast : (ps : Int) * ((p : Int) - 1) = ((ps * (p - 1) : Nat) : Int) := by
    push_cast [Nat.cast_sub hp]
    ring
  rw [hcast]
  exact jsSlice_nat l (ps * (p - 1)) ps

/-- Concatenating the first `t` pages and then dropping `pageSize * t`
elements restores the list. -/
theorem pages_join_aux {α : Type} (ps : Nat) :
    ∀ (t : Nat) (l : List α),
      ((List.range t).map (fun i => (l.drop (ps * i)).take ps)).flatten ++ l.drop (ps * t) = l := by
  intro t
  induction t with
  | zero => intro l; simp
  | succ t ih =>
    intro l
    rw [List.range_succ, List.map_append, List.flatten_append]
    simp only [List.map_cons, List.map_nil, List.flatten_cons, List.flatten_nil, List.append_nil]
    have key : (l.drop (ps * t)).take ps ++ l.drop (ps * t + ps) = l.drop (ps * t) :=
      List.drop_take_append_drop l (ps * t) ps
    rw [List.append_assoc, show ps * (t + 1) = ps * t + ps from by ring, key]
    exact ih l

/-- The number of pages covers the whole list: `len ≤ pageSize * totalPages`. -/
theorem totalPages_mul_ge (len ps : Nat) (hps : 0 < ps) : len ≤ ps * totalPages len ps := by
  unfold totalPages
  have hdm := Nat.div_add_mod (len + ps - 1) ps
  have hmod : (len + ps - 1) % ps < ps := Nat.mod_lt _ hps
  omega

/-- **C3.** For every list and positive page size: concatenating
`paginate(l, p, pageSize)` for `p = 1` to `totalPages` in order reproduces
the list exactly; every page has length at most `pageSize`; and every page
before the last has length exactly `pageSize` (so only the last page may be
shorter). -/
theorem c3_paginate_partition {α : Type} (l : List α) (ps : Nat) (hps : 0 < ps) :
    (((List.range (totalPages l.length ps)).map
        (fun i : Nat => paginate l ((i : Int) + 1) ps)).flatten = l)
    ∧ (∀ p : Nat, 1 ≤ p → p ≤ totalPages l.length ps →
        (paginate l (p : Int) ps).length ≤ ps)
    ∧ (∀ p : Nat, 1 ≤ p → p < totalPages l.length ps →
        (paginate l (p : Int) ps).length = ps) := by
  have hfun : (fun i : Nat => paginate l ((i : Int) + 1) ps)
      = (fun i : Nat => (l.drop (ps * i)).take ps) := by
    funext i
    rw [show ((i : Int) + 1) = (((i + 1 : Nat)) : Int) from by push_cast; ring,
        paginate_nat l (i + 1) ps (by omega)]
    simp
  refine ⟨?_, ?_, ?_⟩
  · rw [hfun]
    have haux := pages_join_aux ps (totalPages l.length ps) l
    rw [List.drop_eq_nil_of_le (totalPages_mul_ge l.length ps hps), List.append_nil] at haux
    exact haux
  · intro p hp1 _
    rw [paginate_nat l p ps hp1]
    have := List.length_take ps (l.drop (ps * (p - 1)))
    omega
  · intro p hp1 hpt
    rw [paginate_nat l p ps hp1]
    have hdm := Nat.div_add_mod (l.length + ps - 1) ps
    have hmod : (l.length + ps - 1) % ps < ps := Nat.mod_lt _ hps
    have h1 : ps * (p - 1) + ps = ps * p := by
      conv_rhs => rw [show p = (p - 1) + 1 from by omega]
      rw [Nat.mul_succ]
    have h2 : ps * (p + 1) ≤ ps * totalPages l.length ps := by
      apply Nat.mul_le_mul_left
      omega
    have h3 : ps * (p + 1) = ps * p + ps := Nat.mul_succ ps p
    unfold totalPages at h2
    have h4 := List.length_take ps (l.drop (ps * (p - 1)))
    have h5 := List.length_drop (ps * (p - 1)) l
    omega

/-- **C3 witness.** The partition theorem applied at the concrete list
`[10, 20, 30]` with page size 2 (two pages, the last one shorter). -/
theorem c3_paginate_partition_witness :
    ((List.range (totalPages ([10, 20, 30] : List Nat).length 2)).map
        (fun i : Nat => paginate ([10, 20, 30] : List Nat) ((i : Int) + 1) 2)).flatten
      = [10, 20, 30] :=
  (c3_paginate_partition [10, 20, 30] 2 (by decide)).1

/-- **C4 counterexample.** The claim says every negative `currentPage`
yields an empty slice; but JavaScript `slice` interprets the negative start
index `pageSize * (currentPage - 1) = -2` relative to the end of the array,
so `paginate([10,20,30,40], -1, 1)` returns the non-empty slice `[30]`. -/
theorem c4_counterexample :
    paginate ([10, 20, 30, 40] : List Nat) (-1) 1 = [30]
    ∧ ([30] : List Nat) ≠ [] := by
  refine ⟨by decide, by decide⟩

/-- **C4 (amended).** For every positive page size, a `currentPage` beyond
`totalPages` and the page number 0 both yield an empty slice — with no
error raised (the function is total) and no clamping of `currentPage`.  A
*negative* `currentPage`, however, makes JavaScript `slice` count its
start index from the end of the array and can return a non-empty slice
(see the counterexample). -/
theorem c4_amended {α : Type} (l : List α) (cp : Int) (ps : Nat) (hps : 0 < ps)
    (h : cp = 0 ∨ (totalPages l.length ps : Int) < cp) :
    paginate l cp ps = [] := by
  unfold paginate jsSlice
  dsimp only
  rcases h with h0 | hgt
  · subst h0
    rw [if_pos (by omega : (ps : Int) * (0 - 1) < 0)]
    rw [if_neg (by omega : ¬ ((ps : Int) * (0 - 1) + ps < 0))]
    have he : min ((ps : Int) * (0 - 1) + ps) (l.length : Int) = 0 := by
      have hzero : (ps : Int) * (0 - 1) + ps = 0 := by ring
      rw [hzero]
      omega
    rw [he]
    have hz : ((0 : Int) - max ((l.length : Int) + (ps : Int) * (0 - 1)) 0).toNat = 0 := by
      omega
    rw [hz, List.take_zero]
  · have h1 : (l.length : Int) ≤ (ps : Int) * (totalPages l.length ps : Int) := by
      exact_mod_cast totalPages_mul_ge l.length ps hps
    have h2 : (ps : Int) * (totalPages l.length ps : Int) ≤ (ps : Int) * (cp - 1) :=
      mul_le_mul_of_nonneg_left (by omega) (by omega)
    have hlen : (l.length : Int) ≤ (ps : Int) * (cp - 1) := le_trans h1 h2
    rw [if_neg (by omega : ¬ ((ps : Int) * (cp - 1) < 0))]
    rw [if_neg (by omega : ¬ ((ps : Int) * (cp - 1) + ps < 0))]
    rw [min_eq_right hlen, min_eq_right (by omega : (l.length : Int) ≤ (ps : Int) * (cp - 1) + ps)]
    simp

/-- **C4 witness.** The amended theorem applied at the concrete list
`[1, 2, 3]` with page size 2 (two pages) and the out-of-range page 5. -/
theorem c4_amended_witness : paginate ([1, 2, 3] : List Nat) 5 2 = [] :=
  c4_amended [1, 2, 3] 5 2 (by decide) (Or.inr (by decide))

/-- **C2 witness.** The filter-exactness theorem applied at a concrete
record list and the non-empty, already-trimmed term `"x"`. -/
theorem c2_filter_exact_witness :
    searchFilter [undefRec] [keyColumn] "x"
      = List.filter (specMatch [keyColumn] "x") [undefRec] :=
  (c2_filter_exact [undefRec] [keyColumn] "x" (by decide) (by decide)).1

/-! ## No adjacent ellipses (C8) -/

/-- Is the token the ellipsis marker? -/
def isEllipsisTok : Token → Bool
  | Token.ellipsis => true
  | Token.page _ => false

/-- No two ellipsis markers appear next to each other in the token list. -/
def noTwoEllipses : List Token → Bool
  | [] => true
  | [_] => true
  | a :: b :: rest => !(isEllipsisTok a && isEllipsisTok b) && noTwoEllipses (b :: rest)

/-- A leading page token never contributes an adjacent-ellipsis pair. -/
theorem ntE_page_cons (a : Nat) (xs : List Token) :
    noTwoEllipses (Token.page a :: xs) = noTwoEllipses xs := by
  cases xs with
  | nil => rfl
  | cons x xs => simp [noTwoEllipses, isEllipsisTok]

/-- An ellipsis immediately followed by a page token is harmless. -/
theorem ntE_ell_page (a : Nat) (xs : List Token) :
    noTwoEllipses (Token.ellipsis :: Token.page a :: xs)
      = noTwoEllipses (Token.page a :: xs) := by
  simp [noTwoEllipses, isEllipsisTok]

/-- Any block of page tokens can be stripped from the front. -/
theorem ntE_pages_append (ns : List Nat) (rest : List Token) :
    noTwoEllipses (ns.map Token.page ++ rest) = noTwoEllipses rest := by
  induction ns with
  | nil => rfl
  | cons a ns ih => rw [List.map_cons, List.cons_append, ntE_page_cons, ih]

/-- The trailing segment of the window on its own has no adjacent
ellipses. -/
theorem ntE_trail (se total : Nat) :
    noTwoEllipses (if se < total - 1 then [Token.ellipsis, Token.page total]
        else if se < total then [Token.page total] else []) = true := by
  by_cases h1 : se < total - 1
  · rw [if_pos h1, ntE_ell_page]
    rfl
  · rw [if_neg h1]
    by_cases h2 : se < total
    · rw [if_pos h2]
      rfl
    · rw [if_neg h2]
      rfl

/-- **C8.** For every `currentPage` between 1 and `totalPages`, the
pagination window at radius 2 never contains two ellipsis markers next to
each other: the middle segment is non-empty (it contains `currentPage`),
so every ellipsis is followed by a page number. -/
theorem c8_no_adjacent_ellipses (cp total : Nat) (h1 : 1 ≤ cp) (h2 : cp ≤ total) :
    noTwoEllipses (window cp total 2) = true := by
  unfold window
  by_cases htot : total > 1
  · rw [if_pos htot]
    dsimp only
    rw [show jsRange (max 1 (cp - 2)) (min total (cp + 2) + 1)
          = List.range' (max 1 (cp - 2)) (min total (cp + 2) + 1 - max 1 (cp - 2)) from rfl]
    have hle : max 1 (cp - 2) ≤ min total (cp + 2) := by omega
    rw [show min total (cp + 2) + 1 - max 1 (cp - 2)
          = (min total (cp + 2) - max 1 (cp - 2)) + 1 from by omega]
    rw [List.range'_succ, List.map_cons, List.append_assoc, List.cons_append]
    by_cases hL1 : max 1 (cp - 2) > 2
    · rw [if_pos hL1]
      rw [List.cons_append, List.cons_append, List.nil_append]
      rw [ntE_page_cons, ntE_ell_page, ntE_page_cons, ntE_pages_append]
      exact ntE_trail _ total
    · rw [if_neg hL1]
      by_cases hL2 : max 1 (cp - 2) > 1
      · rw [if_pos hL2, List.cons_append, List.nil_append]
        rw [ntE_page_cons, ntE_page_cons, ntE_pages_append]
        exact ntE_trail _ total
      · rw [if_neg hL2, List.nil_append]
        rw [ntE_page_cons, ntE_pages_append]
        exact ntE_trail _ total
  · rw [if_neg htot]
    rfl

/-- **C8 witness.** The theorem applied at `currentPage = 5`,
`totalPages = 10`: the window `[1,"...",3,4,5,6,7,"...",10]` has no
adjacent ellipses. -/
theorem c8_no_adjacent_ellipses_witness : noTwoEllipses (window 5 10 2) = true :=
  c8_no_adjacent_ellipses 5 10 (by decide) (by decide)

/-! ## Sort-click behaviour (C5) -/

/-- A record with field `"a" = 2`. -/
def rA : Record := [("a", JsValue.num 2)]

/-- A record with field `"a" = 1`. -/
def rB : Record := [("a", JsValue.num 1)]

/-- A concrete state: two unsorted-by-`"a"` records, active sort key
`"b"`, and the current page set to 2. -/
def exState : TState :=
  { data := [rA, rB], filtered := [rA, rB], columns := [keyColumn],
    sortColumn := { key := "b", order := Order.asc }, currentPage := 2, pageSize := 1 }

/-- **C5 counterexample.** The claim says that after any sort-request both
the re-sort and the page reset happen; but the `table.js` handler leaves
`currentPage` unchanged (here it stays 2 instead of 1), and the
`part_000` handler (whose `sortData()` call is commented out) leaves the
data in its old, unsorted order. -/
theorem c5_counterexample :
    (headerClickJs exState "a").currentPage ≠ 1
    ∧ (headerClickPart exState "a").filtered
        ≠ jsSortRecords { key := "a", order := Order.asc } exState.filtered := by
  refine ⟨by decide, by decide⟩

/-- **C5 (amended).** For every sort-request on a (non-`ignoreFiltering`)
column key `k`: in both class variants the sort state toggles the
direction when `k` is the active key and otherwise becomes `k` ascending;
the `table.js` handler then re-sorts the data under the new sort state (a
permutation of the old data) but leaves `currentPage` unchanged, while the
`part_000` handler resets `currentPage` to 1 but re-sorts nothing. -/
theorem c5_amended (st : TState) (k : String)
    (_hcol : ∃ c ∈ st.columns, c.key = k ∧ c.ignoreFiltering = false) :
    (headerClickJs st k).sortColumn = nextSortState st.sortColumn k
    ∧ (headerClickJs st k).data = jsSortRecords (nextSortState st.sortColumn k) st.data
    ∧ (headerClickJs st k).filtered = jsSortRecords (nextSortState st.sortColumn k) st.data
    ∧ List.Perm (headerClickJs st k).data st.data
    ∧ (headerClickJs st k).currentPage = st.currentPage
    ∧ (headerClickPart st k).sortColumn = nextSortState st.sortColumn k
    ∧ (headerClickPart st k).currentPage = 1
    ∧ (headerClickPart st k).data = st.data
    ∧ (headerClickPart st k).filtered = st.filtered := by
  have hsc : (if st.sortColumn.key = k
      then { st.sortColumn with
               order := if st.sortColumn.order = Order.asc then Order.desc else Order.asc }
      else { key := k, order := Order.asc }) = nextSortState st.sortColumn k := by
    unfold nextSortState
    by_cases h : st.sortColumn.key = k
    · rw [if_pos h, if_pos h]
      cases ho : st.sortColumn.order <;> simp [toggleOrder, ho]
    · rw [if_neg h, if_neg h]
  unfold headerClickJs headerClickPart
  dsimp only
  rw [hsc]
  exact ⟨rfl, rfl, rfl, insertionSortJs_perm _ st.data, rfl, rfl, rfl, rfl, rfl⟩

/-- **C5 witness.** The amended theorem applied at the concrete state
(current page 2, click on column `"a"`): `currentPage` is preserved by the
`table.js` handler. -/
theorem c5_amended_witness :
    (headerClickJs exState "a").currentPage = exState.currentPage :=
  (c5_amended exState "a" ⟨keyColumn, by decide, by decide, by decide⟩).2.2.2.2.1

/-! ## Construction behaviour (C7, C10) -/

/-- **C7 counterexample.** The claim says construction throws when the
initial `sortColumn.key` matches no column, and when `columns` is empty;
but with an explicitly supplied `sortColumn` the constructor validates
neither: both constructions below succeed. -/
theorem c7_counterexample :
    exceptOk (construct true [] [keyColumn] (some { key := "zzz", order := Order.asc }) 3) = true
    ∧ exceptOk (construct true [] ([] : List Column)
        (some { key := "a", order := Order.asc }) 3) = true :=
  ⟨rfl, rfl⟩

/-- **C7 (amended).** Construction fails synchronously exactly when no
element is supplied, or when `sortColumn` is omitted while the column list
is empty (the `TypeError` from reading `columns[0].key` in the default
parameter).  In every other case — including an empty column list with an
explicit `sortColumn`, and a `sortColumn.key` matching no column —
construction succeeds; no partial engine escapes a failed construction
(the result is an `error`, not an engine). -/
theorem c7_amended (element : Bool) (data : List Record) (columns : List Column)
    (sortColumn? : Option SortState) (pageSize : Nat) :
    exceptOk (construct element data columns sortColumn? pageSize)
      = (element && (sortColumn?.isSome || !columns.isEmpty)) := by
  cases sortColumn? with
  | some sc => cases element <;> rfl
  | none =>
    cases columns with
    | nil => cases element <;> rfl
    | cons c cs => cases element <;> rfl

/-- **C10.** In the closure-based variant, constructing with empty initial
data and `hasRefresh = false` renders only the no-records card and returns
`undefined` instead of the `update` function: the data-replacement
operation is never available on that instance. -/
theorem c10_empty_no_update (columns : List Column) (sortColumn? : Option SortState)
    (h : sortColumn?.isSome = true ∨ columns ≠ []) :
    tablePage true [] columns sortColumn? false
      = Except.ok { noRecordsCardOnly := true, updateAvailable := false } := by
  cases sortColumn? with
  | some sc => rfl
  | none =>
    cases columns with
    | nil =>
      rcases h with h | h
      · simp at h
      · exact absurd rfl h
    | cons c cs => rfl

/-- **C10 witness.** The theorem applied with one concrete column and the
default sort column. -/
theorem c10_empty_no_update_witness :
    tablePage true [] [keyColumn] none false
      = Except.ok { noRecordsCardOnly := true, updateAvailable := false } :=
  c10_empty_no_update [keyColumn] none (Or.inr (by decide))
